import Mathlib

/-!
Verification of the training/evaluation orchestration script `apps/train_net.py`
(NASA.PyTorch).  The script's pure control logic — side-effect cadence guards,
the 0.5 binarization, the MSE/accuracy bookkeeping, batch consumption with
`drop_last`, the epoch/scheduler/cursor loop, checkpoint-at-startup handling and
command-line slicing — is shallowly embedded below.  Tensors of per-sample
predictions and targets are modelled as lists of rationals; the network itself
is opaque and passed in as a function parameter.
-/

/-! ## Configuration and side-effect cadence (train, lines 149-176) -/

/-- The fields of the frozen configuration that the cadence guards read. -/
structure Cfg where
  freq_plot : ℕ
  freq_show : ℕ
  freq_save : ℕ
  freq_eval : ℕ
  overfit : Bool

/-- `iteration % cfg.freq_plot == 0 and iteration > 0` (line 149). -/
def logFires (c : Cfg) (i : ℕ) : Bool :=
  (i % c.freq_plot == 0) && decide (0 < i)

/-- `iteration % cfg.freq_show == 0 and iteration > 0` (line 162). -/
def showFires (c : Cfg) (i : ℕ) : Bool :=
  (i % c.freq_show == 0) && decide (0 < i)

/-- `iteration % cfg.freq_save == 0 and iteration > 0 and not cfg.overfit` (line 168). -/
def saveFires (c : Cfg) (i : ℕ) : Bool :=
  (i % c.freq_save == 0) && decide (0 < i) && !c.overfit

/-- `iteration % cfg.freq_eval == 0 and iteration > 0 and not cfg.overfit` (line 173). -/
def evalFires (c : Cfg) (i : ℕ) : Bool :=
  (i % c.freq_eval == 0) && decide (0 < i) && !c.overfit

lemma fires_iff (f i : ℕ) (hf : 0 < f) :
    (((i % f == 0) && decide (0 < i)) = true) ↔ ∃ k, 0 < k ∧ i = k * f := by
  simp only [Bool.and_eq_true, beq_iff_eq, decide_eq_true_eq]
  constructor
  · rintro ⟨hmod, hpos⟩
    obtain ⟨k, hk⟩ := Nat.dvd_of_mod_eq_zero hmod
    refine ⟨k, ?_, by rw [hk, Nat.mul_comm]⟩
    rcases Nat.eq_zero_or_pos k with h0 | h1
    · subst h0; omega
    · exact h1
  · rintro ⟨k, hk, rfl⟩
    exact ⟨Nat.mul_mod_left k f, Nat.mul_pos hk hf⟩

lemma firesOv_iff (f i : ℕ) (ov : Bool) (hf : 0 < f) :
    (((i % f == 0) && decide (0 < i) && !ov) = true) ↔
      (∃ k, 0 < k ∧ i = k * f) ∧ ov = false := by
  rw [Bool.and_eq_true, Bool.not_eq_true']
  exact and_congr_left fun _ => fires_iff f i hf

/-- C1: within an epoch, scalar logging fires iff the iteration index is a
positive multiple of `freq_plot`; diagnostic rendering iff a positive multiple
of `freq_show`; checkpoint saving iff a positive multiple of `freq_save` with
the overfit flag clear; held-out evaluation iff a positive multiple of
`freq_eval` with the overfit flag clear.  No side effect fires at iteration 0,
and the overfit flag has no influence on logging or rendering. -/
theorem side_effect_cadence (c : Cfg) (i : ℕ) (hp : 0 < c.freq_plot)
    (hsh : 0 < c.freq_show) (hsa : 0 < c.freq_save) (hev : 0 < c.freq_eval) :
    (logFires c i = true ↔ ∃ k, 0 < k ∧ i = k * c.freq_plot) ∧
    (showFires c i = true ↔ ∃ k, 0 < k ∧ i = k * c.freq_show) ∧
    (saveFires c i = true ↔ (∃ k, 0 < k ∧ i = k * c.freq_save) ∧ c.overfit = false) ∧
    (evalFires c i = true ↔ (∃ k, 0 < k ∧ i = k * c.freq_eval) ∧ c.overfit = false) ∧
    (logFires c 0 = false ∧ showFires c 0 = false ∧
      saveFires c 0 = false ∧ evalFires c 0 = false) ∧
    (∀ b, logFires { c with overfit := b } i = logFires c i ∧
      showFires { c with overfit := b } i = showFires c i) := by
  refine ⟨fires_iff _ _ hp, fires_iff _ _ hsh, firesOv_iff _ _ _ hsa,
    firesOv_iff _ _ _ hev, ?_, fun b => ⟨rfl, rfl⟩⟩
  simp [logFires, showFires, saveFires, evalFires]

/-- Concrete instance of `side_effect_cadence` with all hypotheses discharged:
with frequencies 2/3/4/5 and the overfit flag set, logging fires at iteration 6
while saving never fires at iteration 0. -/
theorem side_effect_cadence_witness :
    logFires ⟨2, 3, 4, 5, true⟩ 6 = true ∧ saveFires ⟨2, 3, 4, 5, true⟩ 0 = false := by
  have h := side_effect_cadence ⟨2, 3, 4, 5, true⟩ 6
    (by decide) (by decide) (by decide) (by decide)
  exact ⟨h.1.mpr ⟨3, by decide, by decide⟩, h.2.2.2.2.1.2.2.1⟩

/-! ## Binarization at 0.5 (test lines 64-65, train lines 136-137) -/

/-- `t.masked_fill(t < 0.5, 0.)`, elementwise. -/
def maskFillLtHalf (x : ℚ) : ℚ := if x < 1/2 then 0 else x

/-- `t.masked_fill(t >= 0.5, 1.)`, elementwise; applied to the result of
`maskFillLtHalf`, exactly as the two consecutive statements in the source. -/
def maskFillGeHalf (x : ℚ) : ℚ := if 1/2 ≤ x then 1 else x

lemma binarize_eq (x : ℚ) :
    maskFillGeHalf (maskFillLtHalf x) = if x < 1/2 then 0 else 1 := by
  simp only [maskFillLtHalf, maskFillGeHalf]
  by_cases h : x < 1/2
  · rw [if_pos h, if_neg (by norm_num), if_pos h]
  · rw [if_neg h, if_pos (not_lt.mp h), if_neg h]

/-- C3: the two-step masked-fill binarization used in both the training loop
and the held-out evaluation helper maps every value strictly below 0.5 to 0 and
every value at or above 0.5 to 1; in particular 0.5 itself maps to 1. -/
theorem binarize_threshold (x : ℚ) :
    maskFillGeHalf (maskFillLtHalf x) = (if x < 1/2 then 0 else 1) ∧
    maskFillGeHalf (maskFillLtHalf (1/2)) = 1 := by
  refine ⟨binarize_eq x, ?_⟩
  rw [binarize_eq, if_neg (by norm_num)]

/-! ## Per-batch metrics (F.mse_loss with mean reduction; eq().float().mean()) -/

/-- `F.mse_loss(output, target)` with the default mean reduction, on matched
per-sample scalars. -/
def mse (outs tgts : List ℚ) : ℚ :=
  (List.zipWith (fun o t => (o - t) ^ 2) outs tgts).sum / (outs.length : ℚ)

/-- `pred.eq(target).float().mean()` on matched per-sample scalars. -/
def accMean (preds tgts : List ℚ) : ℚ :=
  (List.zipWith (fun p t => if p = t then (1 : ℚ) else 0) preds tgts).sum
    / (preds.length : ℚ)

/-! ## One training iteration (train, lines 133-143) -/

/-- Observable results of one training iteration: the loss value, the scalar
handed to `backward()`/`optimizer.step()`, and the accuracy diagnostic. -/
structure TrainIterResult where
  loss : ℚ
  backpropagated : ℚ
  correct : ℚ

/-- One training iteration on a batch whose raw network outputs are `outs` and
whose targets are `tgts`, following lines 133-143 of the source in order:
compute the MSE loss, rebind `output` through the two masked fills, compute the
accuracy diagnostic, then backpropagate the loss. -/
def trainStep (outs tgts : List ℚ) : TrainIterResult :=
  let output := outs
  let loss := mse output tgts
  let output := output.map maskFillLtHalf
  let output := output.map maskFillGeHalf
  let correct := accMean output tgts
  { loss := loss, backpropagated := loss, correct := correct }

/-- C4: the scalar that is backpropagated each iteration is the MSE between the
raw (un-binarized) outputs and the targets; binarization enters only the
auxiliary accuracy metric. -/
theorem loss_uses_raw_output (outs tgts : List ℚ) :
    (trainStep outs tgts).backpropagated = mse outs tgts ∧
    (trainStep outs tgts).loss = mse outs tgts ∧
    (trainStep outs tgts).correct =
      accMean (outs.map fun x => if x < 1/2 then 0 else 1) tgts := by
  refine ⟨rfl, rfl, ?_⟩
  show accMean ((outs.map maskFillLtHalf).map maskFillGeHalf) tgts = _
  rw [List.map_map]
  have h : (maskFillGeHalf ∘ maskFillLtHalf) = fun x : ℚ => if x < 1/2 then 0 else 1 :=
    funext binarize_eq
  rw [h]

/-! ## DataLoader batching (torch.utils.data.DataLoader semantics)

The script builds a fresh shuffled loader per epoch with `drop_last=True`
(train, lines 110-113) and a sequential loader without `drop_last` in the
held-out helper (test, lines 44-47).  A loader serves consecutive size-`B`
slices of the (already shuffled) sample order; with `drop_last` a trailing
incomplete slice is discarded, without it the trailing slice is served short.
The recursion is driven by a fuel argument equal to the list length, which
suffices for every batch size `B > 0`. -/

def chunksDropAux (B : ℕ) : ℕ → List α → List (List α)
  | 0, _ => []
  | fuel + 1, xs =>
    if B ≤ xs.length then xs.take B :: chunksDropAux B fuel (xs.drop B) else []

/-- The batches a `drop_last=True` loader yields over sample order `xs`. -/
def loaderBatches (B : ℕ) (xs : List α) : List (List α) :=
  chunksDropAux B xs.length xs

def chunksAllAux (B : ℕ) : ℕ → List α → List (List α)
  | 0, _ => []
  | fuel + 1, xs =>
    if xs.isEmpty then [] else xs.take B :: chunksAllAux B fuel (xs.drop B)

/-- The batches a `drop_last=False` loader yields over sample order `xs`. -/
def chunksAll (B : ℕ) (xs : List α) : List (List α) :=
  chunksAllAux B xs.length xs

/-! ## Batch consumption within one epoch (train, lines 114-123)

The epoch body runs `for iteration in range(start_iter, niter)` where
`niter = len(train_data_loader)`, and each iteration calls `next(loader)`, so
it consumes the first `niter - start_iter` batches of the fresh loader. -/

/-- The batches one epoch consumes when resuming from cursor `s`. -/
def epochConsumedBatches (B s : ℕ) (xs : List α) : List (List α) :=
  (loaderBatches B xs).take ((loaderBatches B xs).length - s)

/-- The samples one epoch visits when resuming from cursor `s`. -/
def epochVisited (B s : ℕ) (xs : List α) : List α :=
  (epochConsumedBatches B s xs).flatten

lemma chunksDropAux_join (B : ℕ) (hB : 0 < B) :
    ∀ (fuel : ℕ) (xs : List α), xs.length ≤ fuel →
      (chunksDropAux B fuel xs).flatten = xs.take (B * (xs.length / B)) := by
  intro fuel
  induction fuel with
  | zero =>
    intro xs hxs
    have : xs = [] := List.eq_nil_of_length_eq_zero (Nat.le_zero.mp hxs)
    subst this
    simp [chunksDropAux]
  | succ n ih =>
    intro xs hxs
    by_cases h : B ≤ xs.length
    · have hdrop : (xs.drop B).length ≤ n := by
        rw [List.length_drop]; omega
      rw [chunksDropAux, if_pos h, List.flatten_cons, ih (xs.drop B) hdrop,
        List.length_drop]
      have hdiv : xs.length / B = (xs.length - B) / B + 1 :=
        Nat.div_eq_sub_div hB h
      rw [← List.take_add]
      congr 1
      rw [hdiv, Nat.mul_add, Nat.mul_one, Nat.add_comm]
    · rw [chunksDropAux, if_neg h]
      have : xs.length / B = 0 := Nat.div_eq_of_lt (Nat.lt_of_not_le h)
      simp [this]

lemma loaderBatches_join (B : ℕ) (hB : 0 < B) (xs : List α) :
    (loaderBatches B xs).flatten = xs.take (B * (xs.length / B)) :=
  chunksDropAux_join B hB xs.length xs (Nat.le_refl _)

/-- C5 counterexample: with batch size 2 over the three samples `[0, 1, 2]`,
the epoch (fresh cursor) visits only the first full batch; sample `2` belongs
to the training data but is never visited, refuting "every training sample is
visited once per epoch". -/
theorem epoch_misses_dropped_sample :
    (2 ∈ ([0, 1, 2] : List ℕ)) ∧ 2 ∉ epochVisited 2 0 [0, 1, 2] := by
  decide

/-- C5 (amended): each epoch with a fresh cursor visits exactly the first
`B * (N / B)` samples of the shuffled order — all loader batches once, the
trailing `N mod B` samples dropped by `drop_last` — hence visits every sample
exactly once iff `B` divides `N`; a resumed epoch consumes `niter - s`
batches. -/
theorem epoch_visits_full_batches (B s : ℕ) (hB : 0 < B) (xs : List ℕ) :
    epochVisited B 0 xs = xs.take (B * (xs.length / B)) ∧
    (B ∣ xs.length → epochVisited B 0 xs = xs) ∧
    (epochConsumedBatches B s xs).length = (loaderBatches B xs).length - s := by
  have hvis : epochVisited B 0 xs = xs.take (B * (xs.length / B)) := by
    rw [epochVisited, epochConsumedBatches, Nat.sub_zero, List.take_length,
      loaderBatches_join B hB]
  refine ⟨hvis, ?_, ?_⟩
  · intro hdvd
    rw [hvis, Nat.mul_div_cancel' hdvd, List.take_length]
  · rw [epochConsumedBatches, List.length_take]
    omega

/-- Concrete instance of `epoch_visits_full_batches`: batch size 2 over five
samples visits exactly the first four. -/
theorem epoch_visits_full_batches_witness :
    epochVisited 2 0 [0, 1, 2, 3, 4] = [0, 1, 2, 3] :=
  ((epoch_visits_full_batches 2 1 (by decide) [0, 1, 2, 3, 4]).1).trans (by decide)

/-! ## Epoch loop, scheduler and cursor reset (train, lines 104-182) -/

/-- The epoch loop `for epoch in range(start_epoch, cfg.num_epoch)` as a fold
over the list of epoch indices: state is the current `start_iter` and the
number of `scheduler.step()` calls so far; each epoch records its starting
cursor, then the epoch footer (lines 181-182) steps the scheduler once and
resets `start_iter` to 0. -/
def runEpochs (startIter schedSteps : ℕ) : List ℕ → List (ℕ × ℕ) × ℕ
  | [] => ([], schedSteps)
  | e :: es =>
    let rest := runEpochs 0 (schedSteps + 1) es
    ((e, startIter) :: rest.1, rest.2)

lemma runEpochs_snd : ∀ (es : List ℕ) (s k : ℕ), (runEpochs s k es).2 = k + es.length := by
  intro es
  induction es with
  | nil => intro s k; simp [runEpochs]
  | cons e es ih =>
    intro s k
    rw [runEpochs, ih]
    simp [Nat.add_comm, Nat.add_assoc, Nat.add_left_comm]

lemma runEpochs_fst_zero : ∀ (es : List ℕ) (k : ℕ),
    (runEpochs 0 k es).1 = es.map fun e => (e, 0) := by
  intro es
  induction es with
  | nil => intro k; rfl
  | cons e es ih => intro k; rw [runEpochs, List.map_cons, ih]

/-- C6: the loop executes `num_epoch - start_epoch` epochs and calls
`scheduler.step()` exactly once per epoch; the first executed epoch starts at
the resumed cursor `s0` and every later one starts at iteration 0. -/
theorem scheduler_and_cursor_reset (se ne s0 : ℕ) (h : se < ne) :
    (runEpochs s0 0 (List.range' se (ne - se))).2 = ne - se ∧
    (runEpochs s0 0 (List.range' se (ne - se))).1 =
      (se, s0) :: (List.range' (se + 1) (ne - se - 1)).map fun e => (e, 0) := by
  obtain ⟨m, hm⟩ : ∃ m, ne - se = m + 1 := ⟨ne - se - 1, by omega⟩
  rw [hm]
  have hr : List.range' se (m + 1) = se :: List.range' (se + 1) m := List.range'_succ se m 1
  rw [hr, runEpochs, runEpochs_snd, runEpochs_fst_zero]
  refine ⟨by simp only [List.length_range']; omega, ?_⟩
  have : m + 1 - 1 = m := rfl
  rw [this]

/-- Concrete instance of `scheduler_and_cursor_reset`: two epochs starting at
epoch 0 with resumed cursor 5 step the scheduler twice, and the second epoch
starts at iteration 0. -/
theorem scheduler_and_cursor_reset_witness :
    (runEpochs 5 0 (List.range' 0 (2 - 0))).2 = 2 - 0 ∧
    (runEpochs 5 0 (List.range' 0 (2 - 0))).1 =
      (0, 5) :: (List.range' (0 + 1) (2 - 0 - 1)).map fun e => (e, 0) :=
  scheduler_and_cursor_reset 0 2 5 (by decide)

/-! ## Checkpoint handling at startup (train, lines 90-93 and 104-105) -/

/-- Modelled from the spec: the `Trainer` class (`lib/common/trainer.py`, not
part of the sources in scope) initializes its training cursor
`(epoch, iteration)` to zero, and `load_ckpt` replaces it with the cursor
stored in the checkpoint. -/
def initialCursor : ℕ × ℕ := (0, 0)

/-- Lines 90-93: if the checkpoint file exists, load it (the trainer's cursor
becomes the checkpoint's); otherwise log the absence (second component `true`)
and keep the fresh cursor.  Both branches return normally. -/
def startupCursor (ckptExists : Bool) (ckpt : ℕ × ℕ) : (ℕ × ℕ) × Bool :=
  if ckptExists then (ckpt, false) else (initialCursor, true)

/-- Lines 104-107: the epoch loop starts from the cursor determined at
startup. -/
def runTraining (ckptExists : Bool) (ckpt : ℕ × ℕ) (numEpoch : ℕ) :
    List (ℕ × ℕ) × ℕ :=
  let cur := (startupCursor ckptExists ckpt).1
  runEpochs cur.2 0 (List.range' cur.1 (numEpoch - cur.1))

/-- C8: a missing checkpoint is logged, not fatal — the run proceeds from the
fresh zero cursor — while an existing checkpoint's cursor is installed before
the first epoch and the loop resumes from it. -/
theorem startup_ckpt_handling (ckpt : ℕ × ℕ) (ne : ℕ) :
    (startupCursor false ckpt).1 = initialCursor ∧
    (startupCursor false ckpt).2 = true ∧
    (startupCursor true ckpt).1 = ckpt ∧
    (startupCursor true ckpt).2 = false ∧
    runTraining false ckpt ne = runEpochs 0 0 (List.range' 0 ne) ∧
    runTraining true ckpt ne = runEpochs ckpt.2 0 (List.range' ckpt.1 (ne - ckpt.1)) := by
  refine ⟨rfl, rfl, rfl, rfl, ?_, rfl⟩
  simp [runTraining, startupCursor, initialCursor]

/-! ## Held-out evaluation helper (test, lines 40-71)

The network is opaque: it is passed in as a function from the current
parameters and one input sample to a predicted scalar.  The trainer-owned
network state tracks the parameters, the train/eval mode flag toggled by
`net.eval()`/`net.train()`, and a counter of gradient-graph-building forward
passes (a forward pass inside `torch.no_grad()` records nothing). -/

/-- The mutable network state visible to this script. -/
structure NetState where
  params : List ℚ
  trainingMode : Bool
  gradGraphSize : ℕ

/-- Effect of one forward pass on the network state: under gradient tracking it
extends the autograd graph, under `torch.no_grad()` it records nothing; it
never writes the parameters. -/
def forwardEffect (gradEnabled : Bool) (s : NetState) : NetState :=
  if gradEnabled then { s with gradGraphSize := s.gradGraphSize + 1 } else s

/-- Line 61: `test_loss += F.mse_loss(output, target).item()` for one batch of
(input, target) samples. -/
def batchLoss (net : List ℚ → ℚ → ℚ) (ps : List ℚ) (b : List (ℚ × ℚ)) : ℚ :=
  mse (b.map fun p => net ps p.1) (b.map Prod.snd)

/-- Lines 63-67: binarize the predictions with the two masked fills, then
`correct += pred.eq(target).float().mean()` for one batch. -/
def batchCorrect (net : List ℚ → ℚ → ℚ) (ps : List ℚ) (b : List (ℚ × ℚ)) : ℚ :=
  accMean (((b.map fun p => net ps p.1).map maskFillLtHalf).map maskFillGeHalf)
    (b.map Prod.snd)

/-- The whole helper `test(net, logger)` (lines 40-71): switch the net to eval
mode, build a fresh sequential loader over the held-out data, open a
`torch.no_grad()` block, fold once over the batches accumulating `test_loss`
and `correct` from fresh zero accumulators, then log
`(test_loss / len(dataset), 100 * correct / len(dataset))`.  Returns the final
network state together with the logged pair. -/
def testRun (B : ℕ) (net : List ℚ → ℚ → ℚ) (s0 : NetState)
    (testData : List (ℚ × ℚ)) : NetState × ℚ × ℚ :=
  let s1 : NetState := { s0 with trainingMode := false }
  let batches := chunksAll B testData
  let r := batches.foldl
    (fun acc b =>
      (forwardEffect false acc.1,
        acc.2.1 + batchLoss net acc.1.params b,
        acc.2.2 + batchCorrect net acc.1.params b))
    (s1, 0, 0)
  (r.1, r.2.1 / (testData.length : ℚ), 100 * r.2.2 / (testData.length : ℚ))

/-- The pure metric content of the helper: per-batch losses and accuracies
summed over the loader's batches, each divided by the dataset length. -/
def testMetrics (B : ℕ) (net : List ℚ → ℚ → ℚ) (ps : List ℚ)
    (testData : List (ℚ × ℚ)) : ℚ × ℚ :=
  (((chunksAll B testData).map (batchLoss net ps)).sum / (testData.length : ℚ),
    100 * ((chunksAll B testData).map (batchCorrect net ps)).sum / (testData.length : ℚ))

lemma testRun_foldl (net : List ℚ → ℚ → ℚ) :
    ∀ (bs : List (List (ℚ × ℚ))) (s1 : NetState) (a c : ℚ),
      bs.foldl
        (fun acc b =>
          (forwardEffect false acc.1,
            acc.2.1 + batchLoss net acc.1.params b,
            acc.2.2 + batchCorrect net acc.1.params b))
        (s1, a, c)
      = (s1, a + (bs.map (batchLoss net s1.params)).sum,
          c + (bs.map (batchCorrect net s1.params)).sum) := by
  intro bs
  induction bs with
  | nil => intro s1 a c; simp
  | cons b bs ih =>
    intro s1 a c
    rw [List.foldl_cons]
    show List.foldl _ (forwardEffect false s1,
      a + batchLoss net s1.params b, c + batchCorrect net s1.params b) bs = _
    rw [show forwardEffect false s1 = s1 from rfl, ih]
    simp [add_assoc]

lemma testRun_eq (B : ℕ) (net : List ℚ → ℚ → ℚ) (s0 : NetState)
    (testData : List (ℚ × ℚ)) :
    testRun B net s0 testData =
      ({ s0 with trainingMode := false },
        testMetrics B net s0.params testData) := by
  rw [testRun, testRun_foldl]
  simp [testMetrics]

/-- C7: the held-out helper never mutates the network parameters and, running
entirely inside `torch.no_grad()`, never extends the autograd graph; it keeps
no state between calls, so a second call issued right after the first logs the
same metrics. -/
theorem test_no_mutation (B : ℕ) (net : List ℚ → ℚ → ℚ) (s : NetState)
    (d : List (ℚ × ℚ)) :
    (testRun B net s d).1.params = s.params ∧
    (testRun B net s d).1.gradGraphSize = s.gradGraphSize ∧
    (testRun B net (testRun B net s d).1 d).2 = (testRun B net s d).2 := by
  rw [testRun_eq, testRun_eq]
  exact ⟨rfl, rfl, rfl⟩

/-- C2 (code behaviour at the failing input): with batch size 2 over four
held-out samples, (a) a perfect predictor (every prediction equals its target,
both 1) is logged with accuracy value 50, not the 100 the per-batch average
would give, because the accumulated per-batch means are divided by the dataset
size 4 rather than the batch count 2 — the claim's own formula on the same
input yields mean accuracy 1, i.e. 100% — and (b) a constant-0 predictor
against targets 1 is logged with loss 1/2 while the per-batch MSE sum divided
by the batch count is 1. -/
theorem test_divides_by_dataset_size :
    (testRun 2 (fun _ x => x) ⟨[], true, 0⟩ [(1, 1), (1, 1), (1, 1), (1, 1)]).2 = (0, 50) ∧
    ((chunksAll 2 [((1 : ℚ), (1 : ℚ)), (1, 1), (1, 1), (1, 1)]).map
        (batchCorrect (fun _ x => x) [])).sum /
      ((chunksAll 2 [((1 : ℚ), (1 : ℚ)), (1, 1), (1, 1), (1, 1)]).length : ℚ) = 1 ∧
    (testRun 2 (fun _ x => x) ⟨[], true, 0⟩ [(0, 1), (0, 1), (0, 1), (0, 1)]).2 = (1/2, 0) ∧
    ((chunksAll 2 [((0 : ℚ), (1 : ℚ)), (0, 1), (0, 1), (0, 1)]).map
        (batchLoss (fun _ x => x) [])).sum /
      ((chunksAll 2 [((0 : ℚ), (1 : ℚ)), (0, 1), (0, 1), (0, 1)]).length : ℚ) = 1 := by
  refine ⟨?_, ?_, ?_, ?_⟩ <;>
    norm_num [testRun, chunksAll, chunksAllAux, batchLoss, batchCorrect, mse, accMean,
      maskFillLtHalf, maskFillGeHalf, forwardEffect, List.foldl, Prod.ext_iff]

/-! ## Command-line handling (module level, lines 22-36)

`argv = sys.argv[1:sys.argv.index('--')]` slices the full command line from
index 1 up to the first literal `--`; `list.index` raises `ValueError` when no
`--` is present, before any configuration is read.  The parsed slice is then
fed to the argument parser (whose only option is `-cfg` or `--config_file`, with
the last occurrence winning) and the resulting path to the config loader
(`get_cfg_defaults` + `merge_from_file` + `freeze`), modelled as an opaque
function of the path. -/

/-- `sys.argv.index('--')`: index of the first literal `--`, `none` when the
Python call would raise `ValueError`. -/
def indexOfDD : List String → Option ℕ
  | [] => none
  | x :: xs => if x == "--" then some 0 else (indexOfDD xs).map (· + 1)

/-- `sys.argv[1:sys.argv.index('--')]` (line 25). -/
def sliceArgs (argvAll : List String) : Option (List String) :=
  match indexOfDD argvAll with
  | none => none
  | some i => some ((argvAll.drop 1).take (i - 1))

/-- `parser.parse_args(argv).config_file` for a parser whose single option is
`-cfg` or `--config_file`; as in argparse, a later occurrence overrides an earlier
one and a trailing flag with no value yields no path. -/
def parseConfigFile : List String → Option String
  | [] => none
  | "-cfg" :: v :: rest => some ((parseConfigFile rest).getD v)
  | "--config_file" :: v :: rest => some ((parseConfigFile rest).getD v)
  | _ :: rest => parseConfigFile rest

/-- Lines 25-36 end to end: slice the command line at the first `--`, parse the
config-file path from the slice, and build the frozen configuration from the
file it names; `loadCfg` stands for the opaque YAML defaults/merge/freeze
step. -/
def startupConfig {C : Type} (loadCfg : String → C) (argvAll : List String) : Option C :=
  ((sliceArgs argvAll).bind parseConfigFile).map loadCfg

lemma indexOfDD_eq_none : ∀ xs : List String, "--" ∉ xs → indexOfDD xs = none := by
  intro xs
  induction xs with
  | nil => intro _; rfl
  | cons x xs ih =>
    intro h
    rw [indexOfDD, if_neg, ih fun hm => h (List.mem_cons_of_mem x hm)]
    · rfl
    · simp only [beq_iff_eq]
      intro hx
      exact h (hx ▸ List.mem_cons_self x xs)

lemma indexOfDD_of_mem : ∀ xs : List String, "--" ∈ xs → ∃ j, indexOfDD xs = some j := by
  intro xs
  induction xs with
  | nil => intro h; cases h
  | cons x xs ih =>
    intro h
    by_cases hx : x == "--"
    · exact ⟨0, by rw [indexOfDD, if_pos hx]⟩
    · have hm : "--" ∈ xs := by
        rcases List.mem_cons.mp h with h1 | h1
        · exact absurd (by simp [h1.symm]) hx
        · exact h1
      obtain ⟨j, hj⟩ := ih hm
      exact ⟨j + 1, by rw [indexOfDD, if_neg hx, hj]; rfl⟩

lemma indexOfDD_take : ∀ (xs : List String) (j : ℕ), indexOfDD xs = some j →
    xs.take j = xs.takeWhile fun s => !(s == "--") := by
  intro xs
  induction xs with
  | nil => intro j h; simp
  | cons x xs ih =>
    intro j h
    by_cases hx : x == "--"
    · rw [indexOfDD, if_pos hx] at h
      cases h
      simp [List.takeWhile_cons, hx]
    · rw [indexOfDD, if_neg hx] at h
      cases hj : indexOfDD xs with
      | none => rw [hj] at h; cases h
      | some j0 =>
        rw [hj] at h
        cases h
        have hx2 : (x == "--") = false := by simpa using hx
        simp [List.takeWhile_cons, hx2, List.take_succ_cons, ih j0 hj]

lemma sliceArgs_take (xs : List String) (i : ℕ) (h : indexOfDD xs = some i) :
    sliceArgs xs = some ((xs.take i).drop 1) := by
  rw [sliceArgs, h]
  cases i with
  | zero => simp
  | succ j =>
    cases xs with
    | nil => simp
    | cons x t => simp [List.take_succ_cons]

/-- C9: the startup configuration is a function of the arguments preceding the
first `--` alone — two command lines that agree before the first `--` produce
the same parsed slice, the same `config_file`, and the same frozen
configuration, whatever the loader does and whatever follows `--`. -/
theorem config_ignores_post_separator {C : Type} (loadCfg : String → C)
    (a b : List String) (ha : "--" ∈ a) (hb : "--" ∈ b)
    (hpre : (a.takeWhile fun s => !(s == "--")) = b.takeWhile fun s => !(s == "--")) :
    sliceArgs a = sliceArgs b ∧
    (sliceArgs a).bind parseConfigFile = (sliceArgs b).bind parseConfigFile ∧
    startupConfig loadCfg a = startupConfig loadCfg b := by
  obtain ⟨ia, hia⟩ := indexOfDD_of_mem a ha
  obtain ⟨ib, hib⟩ := indexOfDD_of_mem b hb
  have hs : sliceArgs a = sliceArgs b := by
    rw [sliceArgs_take a ia hia, sliceArgs_take b ib hib,
      indexOfDD_take a ia hia, indexOfDD_take b ib hib, hpre]
  exact ⟨hs, by rw [hs], by unfold startupConfig; rw [hs]⟩

/-- Concrete instance of `config_ignores_post_separator`: two command lines
that differ only after `--` yield the same startup configuration. -/
theorem config_ignores_post_separator_witness :
    sliceArgs ["prog", "-cfg", "ex.yaml", "--", "lr", "1.0"] =
      sliceArgs ["prog", "-cfg", "ex.yaml", "--", "root", "data", "x"] ∧
    (sliceArgs ["prog", "-cfg", "ex.yaml", "--", "lr", "1.0"]).bind parseConfigFile =
      (sliceArgs ["prog", "-cfg", "ex.yaml", "--", "root", "data", "x"]).bind parseConfigFile ∧
    startupConfig (fun s => s) ["prog", "-cfg", "ex.yaml", "--", "lr", "1.0"] =
      startupConfig (fun s => s) ["prog", "-cfg", "ex.yaml", "--", "root", "data", "x"] :=
  config_ignores_post_separator (fun s => s)
    ["prog", "-cfg", "ex.yaml", "--", "lr", "1.0"]
    ["prog", "-cfg", "ex.yaml", "--", "root", "data", "x"]
    (by decide) (by decide) (by decide)

/-- C10: a command line with no literal `--` fails at the slicing step itself —
the slice is `ValueError` (`none`), so no configuration is ever produced, for
every possible config loader. -/
theorem missing_separator_fails {C : Type} (loadCfg : String → C)
    (argvAll : List String) (h : "--" ∉ argvAll) :
    sliceArgs argvAll = none ∧ startupConfig loadCfg argvAll = none := by
  have hn : indexOfDD argvAll = none := indexOfDD_eq_none argvAll h
  refine ⟨?_, ?_⟩
  · rw [sliceArgs, hn]
  · unfold startupConfig
    rw [sliceArgs, hn]
    rfl

/-- Concrete instance of `missing_separator_fails`: the documented usage line
without its `--` part crashes before configuration loading. -/
theorem missing_separator_fails_witness :
    sliceArgs ["prog", "-cfg", "ex.yaml"] = none ∧
    startupConfig (fun s => s) ["prog", "-cfg", "ex.yaml"] = none :=
  missing_separator_fails (fun s => s) ["prog", "-cfg", "ex.yaml"] (by decide)
